import Mathlib

/-!
Verification of the md_server domain entry store
(src/mdserver/database/database.py and src/mdserver/database.py).

The Python code manipulates JSON-shaped data: dicts with string keys,
lists, strings, numbers and None.  We embed JSON values as the mutual
inductive family `JValue` / `JArr` / `JObj`, with Python dicts embedded
as the ordered association structure `JObj`, matching Python dict
semantics: `joGet` returns the value of the (unique) matching key and
`joSet` updates an existing key in place and appends a fresh key at the
end, exactly as Python dict assignment does.  Wall-clock time
(`time.time()`) is modelled as a `Nat` parameter threaded through the
mutating operations.  The pseudo random offset source
(`random.randrange`) is modelled as a stream `Nat → Nat` of drawn
offsets, and the potentially diverging allocation loop is modelled with
explicit fuel: a result of `none` means the loop is still running after
`fuel` iterations, `some none` means the Python code returned `None`,
and `some (some a)` means it returned the address string `a`.
-/

mutual

/-- A JSON value: Python's None, bool, number, string, list and dict.
Numbers only appear as timestamps in this code base and are modelled as
naturals. -/
inductive JValue : Type where
  | null : JValue
  | bool (b : Bool) : JValue
  | num (n : Nat) : JValue
  | str (s : String) : JValue
  | arr (xs : JArr) : JValue
  | obj (kvs : JObj) : JValue

/-- A JSON array: a list of JSON values. -/
inductive JArr : Type where
  | nil : JArr
  | cons (hd : JValue) (tl : JArr) : JArr

/-- A Python dict with string keys, as an ordered association structure. -/
inductive JObj : Type where
  | nil : JObj
  | cons (k : String) (v : JValue) (tl : JObj) : JObj

end

mutual

/-- Boolean structural equality on JSON values. -/
def jvBeq : JValue → JValue → Bool
  | .null, .null => true
  | .bool x, .bool y => x == y
  | .num x, .num y => x == y
  | .str x, .str y => x == y
  | .arr xs, .arr ys => jaBeq xs ys
  | .obj xs, .obj ys => joBeq xs ys
  | _, _ => false

/-- Boolean structural equality on JSON arrays. -/
def jaBeq : JArr → JArr → Bool
  | .nil, .nil => true
  | .cons x xs, .cons y ys => jvBeq x y && jaBeq xs ys
  | _, _ => false

/-- Boolean structural equality on JSON dicts. -/
def joBeq : JObj → JObj → Bool
  | .nil, .nil => true
  | .cons k v tl, .cons k2 v2 tl2 => k == k2 && jvBeq v v2 && joBeq tl tl2
  | _, _ => false

end

mutual

theorem jvBeq_sound : ∀ a b : JValue, jvBeq a b = true → a = b
  | .null, .null, _ => rfl
  | .bool x, .bool y, h => by
    simp only [jvBeq, beq_iff_eq] at h
    rw [h]
  | .num x, .num y, h => by
    simp only [jvBeq, beq_iff_eq] at h
    rw [h]
  | .str x, .str y, h => by
    simp only [jvBeq, beq_iff_eq] at h
    rw [h]
  | .arr xs, .arr ys, h => by
    rw [jaBeq_sound xs ys (by simpa [jvBeq] using h)]
  | .obj xs, .obj ys, h => by
    rw [joBeq_sound xs ys (by simpa [jvBeq] using h)]

theorem jaBeq_sound : ∀ a b : JArr, jaBeq a b = true → a = b
  | .nil, .nil, _ => rfl
  | .cons x xs, .cons y ys, h => by
    simp only [jaBeq, Bool.and_eq_true] at h
    rw [jvBeq_sound x y h.1, jaBeq_sound xs ys h.2]

theorem joBeq_sound : ∀ a b : JObj, joBeq a b = true → a = b
  | .nil, .nil, _ => rfl
  | .cons k v tl, .cons k2 v2 tl2, h => by
    simp only [joBeq, Bool.and_eq_true, beq_iff_eq] at h
    rw [h.1.1, jvBeq_sound v v2 h.1.2, joBeq_sound tl tl2 h.2]

end

mutual

theorem jvBeq_refl : ∀ a : JValue, jvBeq a a = true
  | .null => rfl
  | .bool x => by simp [jvBeq]
  | .num x => by simp [jvBeq]
  | .str x => by simp [jvBeq]
  | .arr xs => by simpa [jvBeq] using jaBeq_refl xs
  | .obj xs => by simpa [jvBeq] using joBeq_refl xs

theorem jaBeq_refl : ∀ a : JArr, jaBeq a a = true
  | .nil => rfl
  | .cons x xs => by simp [jaBeq, jvBeq_refl x, jaBeq_refl xs]

theorem joBeq_refl : ∀ a : JObj, joBeq a a = true
  | .nil => rfl
  | .cons k v tl => by simp [joBeq, jvBeq_refl v, joBeq_refl tl]

end

instance : DecidableEq JValue := fun a b =>
  decidable_of_iff (jvBeq a b = true)
    ⟨jvBeq_sound a b, fun h => h ▸ jvBeq_refl a⟩

instance : DecidableEq JArr := fun a b =>
  decidable_of_iff (jaBeq a b = true)
    ⟨jaBeq_sound a b, fun h => h ▸ jaBeq_refl a⟩

instance : DecidableEq JObj := fun a b =>
  decidable_of_iff (joBeq a b = true)
    ⟨joBeq_sound a b, fun h => h ▸ joBeq_refl a⟩

/-- Induction principle for `JObj` alone (the nested values are carried,
not recursed into). -/
theorem joIndOn {motive : JObj → Prop} (nil : motive .nil)
    (cons : ∀ k v tl, motive tl → motive (.cons k v tl)) : ∀ o, motive o
  | .nil => nil
  | .cons k v tl => cons k v tl (joIndOn nil cons tl)

/-- Induction principle for `JArr` alone. -/
theorem jaIndOn {motive : JArr → Prop} (nil : motive .nil)
    (cons : ∀ v tl, motive tl → motive (.cons v tl)) : ∀ o, motive o
  | .nil => nil
  | .cons v tl => cons v tl (jaIndOn nil cons tl)

/-- A Python dict is embedded as a `JObj`. -/
abbrev Dict := JObj

/-- `d[k]` lookup: value of the first (unique) matching key. -/
def joGet (d : Dict) (k : String) : Option JValue :=
  match d with
  | .nil => none
  | .cons k1 v rest => if k1 = k then some v else joGet rest k

/-- `d[k] = v` assignment: update an existing key in place, else append. -/
def joSet (d : Dict) (k : String) (v : JValue) : Dict :=
  match d with
  | .nil => .cons k v .nil
  | .cons k1 v1 rest =>
    if k1 = k then .cons k v rest else .cons k1 v1 (joSet rest k v)

/-- `k in d` membership test. -/
def joHas (d : Dict) (k : String) : Bool :=
  (joGet d k).isSome

/-- The keys of a dict, in insertion order (Python dict iteration order). -/
def joKeys (d : Dict) : List String :=
  match d with
  | .nil => []
  | .cons k _ rest => k :: joKeys rest

/-- The key/value pairs of a dict, in insertion order. -/
def joItems (d : Dict) : List (String × JValue) :=
  match d with
  | .nil => []
  | .cons k v rest => (k, v) :: joItems rest

/-- Convert a Lean list of JSON values to a JSON array. -/
def listToJArr (l : List JValue) : JArr :=
  match l with
  | [] => .nil
  | x :: rest => .cons x (listToJArr rest)

/-- Convert a JSON array to a Lean list of JSON values. -/
def jarrToList (a : JArr) : List JValue :=
  match a with
  | .nil => []
  | .cons x rest => x :: jarrToList rest

theorem jarrToList_listToJArr (l : List JValue) : jarrToList (listToJArr l) = l := by
  induction l with
  | nil => rfl
  | cons x rest ih => simp [listToJArr, jarrToList, ih]

theorem joGet_joSet_self (d : Dict) (k : String) (v : JValue) :
    joGet (joSet d k v) k = some v := by
  induction d using joIndOn with
  | nil => simp [joGet, joSet]
  | cons k1 v1 rest ih =>
    by_cases h : k1 = k
    · simp [joGet, joSet, h]
    · simp [joGet, joSet, h, ih]

theorem joGet_joSet_ne (d : Dict) (k k2 : String) (v : JValue) (h : k2 ≠ k) :
    joGet (joSet d k2 v) k = joGet d k := by
  induction d using joIndOn with
  | nil => simp [joGet, joSet, h]
  | cons k1 v1 rest ih =>
    by_cases h1 : k1 = k2
    · subst h1
      simp [joGet, joSet, h]
    · simp only [joSet, if_neg h1]
      by_cases h2 : k1 = k
      · simp [joGet, h2]
      · simp [joGet, h2, ih]

theorem joKeys_joSet (d : Dict) (k : String) (v : JValue) :
    joKeys (joSet d k v) = if joHas d k then joKeys d else joKeys d ++ [k] := by
  induction d using joIndOn with
  | nil => simp [joKeys, joSet, joHas, joGet]
  | cons k1 v1 rest ih =>
    by_cases h : k1 = k
    · simp [joKeys, joSet, joHas, joGet, h]
    · by_cases h3 : (joGet rest k).isSome
      · simp [joSet, joKeys, joHas, joGet, h, h3, ih]
      · simp [joSet, joKeys, joHas, joGet, h, h3, ih]

theorem joGet_isSome_of_mem_keys (d : Dict) (k : String) :
    k ∈ joKeys d ↔ (joGet d k).isSome := by
  induction d using joIndOn with
  | nil => simp [joKeys, joGet]
  | cons k1 v1 rest ih =>
    by_cases h : k1 = k
    · simp [joKeys, joGet, h]
    · simp only [joKeys, List.mem_cons, joGet, if_neg h, ih]
      constructor
      · intro hc
        rcases hc with hc | hc
        · exact absurd hc.symm h
        · exact hc
      · intro hc
        exact Or.inr hc

/-- Build a dict from a list of key/value pairs. -/
def objOf : List (String × JValue) → JObj
  | [] => .nil
  | (k, v) :: rest => .cons k v (objOf rest)

/-- The canonical entry schema, `Database.new_entry()` with no arguments:
all values default to `None` except `domain_metadata`, which defaults to
the empty dict. -/
def new_entry : Dict := objOf
  [("location", JValue.null),
   ("domain_name", JValue.null),
   ("domain_uuid", JValue.null),
   ("domain_metadata", JValue.obj JObj.nil),
   ("mds_mac", JValue.null),
   ("mds_ipv4", JValue.null),
   ("mds_ipv6", JValue.null),
   ("first_seen", JValue.null),
   ("last_update", JValue.null)]

/-- The canonical entry field names, in schema order. -/
def entryKeys : List String :=
  ["location", "domain_name", "domain_uuid", "domain_metadata",
   "mds_mac", "mds_ipv4", "mds_ipv6", "first_seen", "last_update"]

/-- `Database.new_location()` with no arguments. -/
def new_location : Dict := objOf
  [("hostname", JValue.null),
   ("version", JValue.null),
   ("first_seen", JValue.null),
   ("last_seen", JValue.null)]

/-- `Database.new_metadata()` with no arguments. -/
def new_metadata : Dict := objOf
  [("initialised", JValue.null),
   ("updated", JValue.null),
   ("locations", JValue.obj JObj.nil)]

/-- `Database.index_keys`. -/
def index_keys : List String :=
  ["domain_name", "domain_uuid", "mds_mac", "mds_ipv4", "mds_ipv6"]

/-- `Database._check_entry`: `true` means the checks pass, `false` means
the Python code raises `ValueError` (a key of the canonical schema is
missing from the entry, or the entry has an unknown key). -/
def check_entry (e : Dict) : Bool :=
  (joKeys new_entry).all (fun k => joHas e k) &&
    (joKeys e).all (fun k => joHas new_entry k)

/-- `Database._reformat_entry`: build a fresh canonical entry, copying
each canonical field from `old` when present. -/
def reformat_entry (old : Dict) : Dict :=
  (joKeys new_entry).foldl
    (fun acc k =>
      match joGet old k with
      | some v => joSet acc k v
      | none => acc)
    new_entry

/-- Lookup through the in-memory index for `key`:
`self.indices[key] = {e[key]: e for e in entries if e[key] is not None}`
followed by `indices[key][needle]`.  A dict comprehension maps each
duplicated key to the last entry producing it, so the lookup returns the
last entry whose `key` field equals the (non-null) needle. -/
def indexLookup (entries : List Dict) (key : String) (needle : JValue) : Option Dict :=
  match entries with
  | [] => none
  | e :: rest =>
    match indexLookup rest key needle with
    | some r => some r
    | none =>
      if joGet e key = some needle ∧ needle ≠ JValue.null then some e else none

/-- `Database.query`: `ValueError` for a non-indexed key, otherwise the
indexed entry or `None`. -/
def query (entries : List Dict) (key : String) (needle : JValue) :
    Except String (Option Dict) :=
  if key ∈ index_keys then Except.ok (indexLookup entries key needle)
  else Except.error "not a valid database key"

/-- The merge loop of `add_or_update_entry` / `add_or_update_location`:
`for key in entry: if entry[key] is not None and key != "first_seen":
oe[key] = entry[key]`, iterating the candidate dict in insertion order. -/
def mergeEntry (oe : Dict) (entry : Dict) : Dict :=
  (joItems entry).foldl
    (fun acc kv =>
      if kv.2 ≠ JValue.null ∧ kv.1 ≠ "first_seen" then joSet acc kv.1 kv.2 else acc)
    oe

/-- In-place mutation of the entry found through the index: the index maps
the needle to the last matching entry, and that list cell is replaced by
`upd` of itself. -/
def updateLastMatching (entries : List Dict) (key : String) (needle : JValue)
    (upd : Dict → Dict) : List Dict :=
  match entries with
  | [] => []
  | e :: rest =>
    if (indexLookup rest key needle).isSome then
      e :: updateLastMatching rest key needle upd
    else if joGet e key = some needle ∧ needle ≠ JValue.null then upd e :: rest
    else e :: rest

/-- The in-memory state of a `JsonDatabase`: `self.db_meta` (kept as the
raw JSON value loaded from the file) and `self.db_entries`.  The indices
are recomputed from the entries after every mutation, so they are
modelled as the derived function `indexLookup`. -/
structure DbState where
  meta : JValue
  entries : List Dict
deriving DecidableEq

/-- `JsonDatabase.add_or_update_entry(entry, id_field)`.  `now` is the
wall-clock time `time.time()` of this call.  Returns the value of the
final `self.query(id_field, entry[id_field])` together with the new
state; `Except.error` models the `ValueError` raised for a bad
`id_field` or a candidate failing `_check_entry`.

In the update branch the Python code writes `entry["last_seen"] =
time.time()` into the local candidate dict, which is then discarded, so
nothing of it appears in the resulting state.  In the create branch both
`entry["first_seen"]` and `entry["last_seen"]` are set on the candidate
(two separate `time.time()` calls, modelled as the same instant) and the
candidate itself is appended to `db_entries`. -/
def add_or_update_entry (s : DbState) (entry : Dict) (id_field : String) (now : Nat) :
    Except String (Option Dict × DbState) :=
  if id_field ∉ index_keys then
    Except.error "not a valid database key"
  else if ¬ check_entry entry then
    Except.error "invalid entry"
  else
    let needle := (joGet entry id_field).getD JValue.null
    if (indexLookup s.entries id_field needle).isSome then
      let entries2 := updateLastMatching s.entries id_field needle
        (fun oe => mergeEntry oe entry)
      Except.ok (indexLookup entries2 id_field needle, ⟨s.meta, entries2⟩)
    else
      let e2 := joSet (joSet entry "first_seen" (JValue.num now)) "last_seen" (JValue.num now)
      let entries2 := s.entries ++ [e2]
      Except.ok (indexLookup entries2 id_field needle, ⟨s.meta, entries2⟩)

/-- `Database.add_or_update_entry` of the older module
src/mdserver/database.py: identical to the `JsonDatabase` version except
that the create branch sets only `first_seen` on the new entry and the
update branch touches no timestamp at all. -/
def add_or_update_entry_v0 (s : DbState) (entry : Dict) (id_field : String) (now : Nat) :
    Except String (Option Dict × DbState) :=
  if id_field ∉ index_keys then
    Except.error "not a valid database key"
  else if ¬ check_entry entry then
    Except.error "invalid entry"
  else
    let needle := (joGet entry id_field).getD JValue.null
    if (indexLookup s.entries id_field needle).isSome then
      let entries2 := updateLastMatching s.entries id_field needle
        (fun oe => mergeEntry oe entry)
      Except.ok (indexLookup entries2 id_field needle, ⟨s.meta, entries2⟩)
    else
      let e2 := joSet entry "first_seen" (JValue.num now)
      let entries2 := s.entries ++ [e2]
      Except.ok (indexLookup entries2 id_field needle, ⟨s.meta, entries2⟩)

/-- `JsonDatabase.add_or_update_location(name, location)`.  Returns the
new `db_meta`; `none` models a Python crash (the metadata or the stored
location is not dict-shaped).  The update branch runs the same merge
loop as the entry upsert and never refreshes `last_seen`; the create
branch stamps `first_seen` and `last_seen` on the candidate and inserts
it. -/
def add_or_update_location (meta : JValue) (name : String) (location : Dict)
    (now : Nat) : Option JValue :=
  match meta with
  | JValue.obj md =>
    match joGet md "locations" with
    | some (JValue.obj locs) =>
      match joGet locs name with
      | some (JValue.obj oe) =>
        some (JValue.obj (joSet md "locations"
          (JValue.obj (joSet locs name (JValue.obj (mergeEntry oe location))))))
      | some _ => none
      | none =>
        let loc2 := joSet (joSet location "first_seen" (JValue.num now))
          "last_seen" (JValue.num now)
        some (JValue.obj (joSet md "locations"
          (JValue.obj (joSet locs name (JValue.obj loc2)))))
    | _ => none
  | _ => none

/-- `JsonDatabase._refresh_format` over an already-decoded entry list:
entries passing `_check_entry` are kept, the others are reformatted. -/
def refresh_format (entries : List Dict) : List Dict :=
  entries.map (fun e => if check_entry e then e else reformat_entry e)

/-- `_refresh_format` applied to the raw JSON entry list found in a file:
`none` models the crash on a non-dict entry (the Python code would raise
`TypeError` iterating it). -/
def refreshFormatJ : List JValue → Option (List Dict)
  | [] => some []
  | JValue.obj e :: rest =>
    match refreshFormatJ rest with
    | some es => some ((if check_entry e then e else reformat_entry e) :: es)
    | none => none
  | _ :: _ => none

/-- `JsonDatabase._load_dbfile` on the parsed file content: a bare list
is the legacy format and gets a fresh metadata structure; a dict must
have both `metadata` and `entries` keys; anything else raises
`DbFormatUnknown` (modelled as `Except.error`). -/
def load_dbfile (j : JValue) : Except Unit (JValue × JValue) :=
  match j with
  | JValue.arr db => Except.ok (JValue.obj new_metadata, JValue.arr db)
  | JValue.obj db =>
    if (joGet db "metadata").isSome ∧ (joGet db "entries").isSome then
      Except.ok ((joGet db "metadata").getD JValue.null,
        (joGet db "entries").getD JValue.null)
    else Except.error ()
  | _ => Except.error ()

/-- `JsonDatabase.__init__`: `none` as the file content models
`FileNotFoundError` (an empty database, not an error); the inner
`Except.error` models the fatal `TypeError("Unsupported database
format")` re-raised after `DbFormatUnknown`; the outer `none` models any
other crash.  After loading, `_refresh_format` and `_reindex` run. -/
def jsonDatabaseInit (file : Option JValue) : Option (Except Unit DbState) :=
  match file with
  | none => some (Except.ok ⟨JValue.obj new_metadata, []⟩)
  | some j =>
    match load_dbfile j with
    | Except.error e => some (Except.error e)
    | Except.ok (md, entriesJ) =>
      match entriesJ with
      | JValue.arr l =>
        match refreshFormatJ (jarrToList l) with
        | some es => some (Except.ok ⟨md, es⟩)
        | none => none
      | _ => none

/-- `Database.new_db`: the serialised root document. -/
def new_db (metadata : JValue) (entries : List Dict) : JValue :=
  JValue.obj (objOf
    [("metadata", metadata),
     ("entries", JValue.arr (listToJArr (entries.map JValue.obj)))])

/-- `JsonDatabase.store`: the JSON document written to disk.  The
serialise/parse pair `json.dumps` / `json.load` is the identity on JSON
documents, and the temp-file-plus-rename dance does not change the
content, so the file is modelled by the document itself. -/
def storeDb (s : DbState) : JValue := new_db s.meta s.entries

/-- A sequence of `add_or_update_entry` calls against one store, each
with its own wall-clock time; stops at the first `ValueError`. -/
def applyUpserts (s : DbState) (id_field : String) :
    List (Dict × Nat) → Except String DbState
  | [] => Except.ok s
  | (c, t) :: rest =>
    match add_or_update_entry s c id_field t with
    | Except.error e => Except.error e
    | Except.ok (_, s2) => applyUpserts s2 id_field rest

/-- Digits (most significant first) of a positive number in base 10,
with explicit fuel (any fuel at least the number itself suffices);
matches Python's `str(int)` for the component values of an address. -/
def decAux : Nat → Nat → List Char
  | _, 0 => []
  | 0, _ + 1 => []
  | f + 1, n + 1 => decAux f ((n + 1) / 10) ++ [Nat.digitChar ((n + 1) % 10)]

/-- Decimal rendering of a natural, Python `str(int)`. -/
def natDecChars (n : Nat) : List Char :=
  if n = 0 then ['0'] else decAux n n

/-- Digits (most significant first) of a positive number in base 16. -/
def hexAux : Nat → Nat → List Char
  | _, 0 => []
  | 0, _ + 1 => []
  | f + 1, n + 1 => hexAux f ((n + 1) / 16) ++ [Nat.digitChar ((n + 1) % 16)]

/-- Lowercase hex rendering of a natural without leading zeros, Python
`"%x" % n`. -/
def natHexChars (n : Nat) : List Char :=
  if n = 0 then ['0'] else hexAux n n

/-- Dotted-quad rendering of an IPv4 address held as a 32-bit natural:
`str(ipaddress.IPv4Address(a))`. -/
def ipv4Chars (a : Nat) : List Char :=
  natDecChars (a / 16777216 % 256) ++ ['.'] ++ natDecChars (a / 65536 % 256) ++
    ['.'] ++ natDecChars (a / 256 % 256) ++ ['.'] ++ natDecChars (a % 256)

/-- `str(ipaddress.IPv4Address(a))` as a string. -/
def ipv4Str (a : Nat) : String := String.mk (ipv4Chars a)

/-- The eight 16-bit groups of an IPv6 address, most significant first. -/
def ipv6Groups (a : Nat) : List Nat :=
  [a / 2 ^ 112 % 65536, a / 2 ^ 96 % 65536, a / 2 ^ 80 % 65536,
   a / 2 ^ 64 % 65536, a / 2 ^ 48 % 65536, a / 2 ^ 32 % 65536,
   a / 2 ^ 16 % 65536, a % 65536]

/-- The scan of CPython's `ipaddress._compress_hextets`: find the start
and length of the longest (leftmost on ties, since only a strictly longer
run updates the best) run of `"0"` hextets.  Arguments: remaining
hextets, current index, current run start (`None` encodes Python's -1),
current run length, best start, best length. -/
def bestRunAux : List String → Nat → Option Nat → Nat → Option Nat → Nat →
    Option Nat × Nat
  | [], _, _, _, bs, bl => (bs, bl)
  | h :: rest, i, cs, cl, bs, bl =>
    if h = "0" then
      let cs2 := match cs with | none => some i | some s2 => some s2
      let cl2 := cl + 1
      if bl < cl2 then bestRunAux rest (i + 1) cs2 cl2 cs2 cl2
      else bestRunAux rest (i + 1) cs2 cl2 bs bl
    else bestRunAux rest (i + 1) none 0 bs bl

/-- CPython's `ipaddress._compress_hextets`: replace the best zero run by
an empty hextet when it is at least two groups long, padding with empty
hextets at the ends so that `":".join` produces the `::`. -/
def compressHextets (hx : List String) : List String :=
  match bestRunAux hx 0 none 0 none 0 with
  | (some bs, bl) =>
    if 1 < bl then
      let he := bs + bl
      let hx2 := if he = hx.length then hx ++ [""] else hx
      let hx3 := hx2.take bs ++ [""] ++ hx2.drop he
      if bs = 0 then "" :: hx3 else hx3
    else hx
  | (none, _) => hx

/-- `str(ipaddress.IPv6Address(a))`: lowercase hex groups without leading
zeros, longest zero run compressed to `::`. -/
def ipv6Str (a : Nat) : String :=
  String.intercalate ":"
    (compressHextets ((ipv6Groups a).map (fun g => String.mk (natHexChars g))))

/-- An `ipaddress.ip_network` value as far as `gen_ip` consumes it:
address family, network address and total address count
(`2 ^ (bits - prefixlen)`). -/
structure IpNet where
  version : Nat
  base : Nat
  numAddresses : Nat

/-- `ip_network("b/p")` for an IPv4 network. -/
def mkNet4 (base plen : Nat) : IpNet := ⟨4, base, 2 ^ (32 - plen)⟩

/-- `ip_network("b/p")` for an IPv6 network. -/
def mkNet6 (base plen : Nat) : IpNet := ⟨6, base, 2 ^ (128 - plen)⟩

/-- The `version_keys` table of `gen_ip` (only ever applied to 4 or 6). -/
def version_keys (v : Nat) : String :=
  if v = 4 then "mds_ipv4" else "mds_ipv6"

/-- `str(address)` for an address of the given family. -/
def renderIp (version a : Nat) : String :=
  if version = 4 then ipv4Str a else ipv6Str a

/-- Insertion into the `allocated_map` dict keyed by addresses: a Python
dict keeps one copy of each key, in first-insertion order. -/
def setAddJ (m : List JValue) (a : JValue) : List JValue :=
  if a ∈ m then m else m ++ [a]

/-- The distinct keys of `self.indices[key]`, in first-occurrence order:
every non-null `key` field value held by some entry. -/
def indexValues (entries : List Dict) (key : String) : List JValue :=
  (entries.filterMap (fun e =>
    match joGet e key with
    | some v => if v = JValue.null then none else some v
    | none => none)).foldl setAddJ []

/-- The `allocated_map` of `gen_ip` before the loop starts: all addresses
indexed for this family across the whole database, the caller's exclude
list, and the network and broadcast addresses. -/
def genIpInit (entries : List Dict) (net : IpNet) (exclude : List String) :
    List JValue :=
  let m0 := indexValues entries (version_keys net.version)
  let m1 := exclude.foldl (fun m a => setAddJ m (JValue.str a)) m0
  let m2 := setAddJ m1 (JValue.str (renderIp net.version net.base))
  setAddJ m2 (JValue.str (renderIp net.version (net.base + net.numAddresses - 1)))

/-- The `while` loop of `gen_ip`.  `stream` supplies the successive
`random.randrange(0, net.num_addresses)` draws.  `none` means the loop is
still running after `fuel` iterations; `some none` is Python's `None`
(allocation failure); `some (some s)` is a returned address string.
The query test uses `isSome`: `self.query` with a valid index key returns
the indexed entry (a non-empty dict, hence truthy) or `None`. -/
def genIpLoop (entries : List Dict) (net : IpNet) (m : List JValue)
    (stream : Nat → Nat) : Nat → Option (Option String)
  | 0 => none
  | fuel + 1 =>
    if m.length < net.numAddresses then
      let s := renderIp net.version (net.base + stream 0)
      if JValue.str s ∈ m then
        genIpLoop entries net m (fun i => stream (i + 1)) fuel
      else if (indexLookup entries (version_keys net.version) (JValue.str s)).isSome then
        genIpLoop entries net (setAddJ m (JValue.str s)) (fun i => stream (i + 1)) fuel
      else some (some s)
    else some none

/-- `Database.gen_ip(network, prefix, seed, exclude)` (identical in both
database modules), with the network already parsed and the seeded random
source abstracted as the stream of its draws. -/
def gen_ip (entries : List Dict) (net : IpNet) (exclude : List String)
    (stream : Nat → Nat) (fuel : Nat) : Option (Option String) :=
  genIpLoop entries net (genIpInit entries net exclude) stream fuel

/-- Rendering fidelity checks against `str(ipaddress.ip_address(...))`. -/
theorem ipv4Str_examples :
    ipv4Str (10 * 16777216 + 122 * 65536 + 1500) = "10.122.5.220" ∧
    ipv4Str (10 * 16777216 + 122 * 65536) = "10.122.0.0" := by decide

/-- Rendering fidelity checks for the IPv6 compressed form. -/
theorem ipv6Str_examples :
    ipv6Str (0x20010db8 * 2 ^ 96 + 1500000) = "2001:db8::16:e360" ∧
    ipv6Str (0x20010db8 * 2 ^ 96) = "2001:db8::" ∧
    ipv6Str (0x20010db8 * 2 ^ 96 + (2 ^ 96 - 1)) =
      "2001:db8:ffff:ffff:ffff:ffff:ffff:ffff" := by decide

theorem refreshFormatJ_objs (l : List Dict) (h : ∀ e ∈ l, check_entry e = true) :
    refreshFormatJ (l.map JValue.obj) = some l := by
  induction l with
  | nil => rfl
  | cons e rest ih =>
    have he : check_entry e = true := h e (by simp)
    have hrest := ih fun x hx => h x (by simp [hx])
    simp [refreshFormatJ, hrest, he]

/-- C2.  For every well-formed database value (each entry carrying
exactly the canonical field set, hence passing `_check_entry`), storing
to a file and constructing a database from that file yields the same
metadata and the same entry list, order and field values preserved. -/
theorem claim_C2_store_load_round_trip (S : DbState)
    (h : ∀ e ∈ S.entries, check_entry e = true) :
    jsonDatabaseInit (some (storeDb S)) = some (Except.ok S) := by
  have h1 : load_dbfile (storeDb S) =
      Except.ok (S.meta, JValue.arr (listToJArr (S.entries.map JValue.obj))) := rfl
  simp only [jsonDatabaseInit, h1, jarrToList_listToJArr, refreshFormatJ_objs S.entries h]

/-- Witness for C2 at a concrete one-entry database. -/
theorem claim_C2_store_load_round_trip_witness :
    jsonDatabaseInit (some (storeDb ⟨JValue.obj new_metadata, [new_entry]⟩)) =
      some (Except.ok ⟨JValue.obj new_metadata, [new_entry]⟩) :=
  claim_C2_store_load_round_trip ⟨JValue.obj new_metadata, [new_entry]⟩ (by decide)

/-- C8.  Constructing a database from a path: a missing file yields an
empty database; a bare array of valid entry objects yields exactly those
entries with a fresh metadata structure; an object with `metadata` and
`entries` keys yields those contents; any other root shape is a fatal
format error. -/
theorem claim_C8_init_shapes :
    (jsonDatabaseInit none = some (Except.ok ⟨JValue.obj new_metadata, []⟩)) ∧
    (∀ l : List Dict, (∀ e ∈ l, check_entry e = true) →
      jsonDatabaseInit (some (JValue.arr (listToJArr (l.map JValue.obj)))) =
        some (Except.ok ⟨JValue.obj new_metadata, l⟩)) ∧
    (∀ (d : Dict) (md : JValue) (l : List Dict),
      joGet d "metadata" = some md →
      joGet d "entries" = some (JValue.arr (listToJArr (l.map JValue.obj))) →
      (∀ e ∈ l, check_entry e = true) →
      jsonDatabaseInit (some (JValue.obj d)) = some (Except.ok ⟨md, l⟩)) ∧
    (∀ j : JValue, (∀ a : JArr, j ≠ JValue.arr a) →
      (∀ d : Dict, j = JValue.obj d →
        joGet d "metadata" = none ∨ joGet d "entries" = none) →
      jsonDatabaseInit (some j) = some (Except.error ())) := by
  refine ⟨rfl, ?legacy, ?dictroot, ?badshape⟩
  case legacy =>
    intro l h
    simp only [jsonDatabaseInit, load_dbfile, jarrToList_listToJArr,
      refreshFormatJ_objs l h]
  case dictroot =>
    intro d md l hmd hent h
    simp [jsonDatabaseInit, load_dbfile, hmd, hent, jarrToList_listToJArr,
      refreshFormatJ_objs l h]
  case badshape =>
    intro j hnotarr hobj
    cases j with
    | null => rfl
    | bool b => rfl
    | num n => rfl
    | str s => rfl
    | arr a => exact absurd rfl (hnotarr a)
    | obj d =>
      have hcond : ¬((joGet d "metadata").isSome ∧ (joGet d "entries").isSome) := by
        rcases hobj d rfl with h | h <;> simp [h]
      simp [jsonDatabaseInit, load_dbfile, if_neg hcond]

/-- Witness for C8: legacy array with one valid entry, a dict root, and
two unrecognised roots, all at concrete inputs. -/
theorem claim_C8_init_shapes_witness :
    (jsonDatabaseInit (some (JValue.arr (listToJArr ([new_entry].map JValue.obj)))) =
      some (Except.ok ⟨JValue.obj new_metadata, [new_entry]⟩)) ∧
    (jsonDatabaseInit (some (JValue.obj (objOf
        [("metadata", JValue.num 3), ("entries", JValue.arr JArr.nil)]))) =
      some (Except.ok ⟨JValue.num 3, []⟩)) ∧
    (jsonDatabaseInit (some (JValue.num 7)) = some (Except.error ())) ∧
    (jsonDatabaseInit (some (JValue.obj JObj.nil)) = some (Except.error ())) := by
  refine ⟨claim_C8_init_shapes.2.1 [new_entry] (by decide), ?w2, ?w3, ?w4⟩
  case w2 =>
    exact claim_C8_init_shapes.2.2.1 (objOf
      [("metadata", JValue.num 3), ("entries", JValue.arr JArr.nil)])
      (JValue.num 3) [] (by decide) (by decide) (by decide)
  case w3 =>
    exact claim_C8_init_shapes.2.2.2 (JValue.num 7)
      (fun a h => JValue.noConfusion h) (fun d h => JValue.noConfusion h)
  case w4 =>
    exact claim_C8_init_shapes.2.2.2 (JValue.obj JObj.nil)
      (fun a h => JValue.noConfusion h) (fun d h => by cases h; exact Or.inl rfl)

theorem joKeys_new_entry : joKeys new_entry = entryKeys := by decide

theorem index_keys_ne_first_seen : ∀ k ∈ index_keys, k ≠ "first_seen" := by decide

theorem index_keys_ne_last_seen : ∀ k ∈ index_keys, k ≠ "last_seen" := by decide

theorem check_entry_has (C : Dict) (hck : check_entry C = true) :
    ∀ k ∈ entryKeys, (joGet C k).isSome := by
  intro k hk
  have h1 : (joKeys new_entry).all (fun k => joHas C k) = true := by
    simp only [check_entry, Bool.and_eq_true] at hck
    exact hck.1
  rw [joKeys_new_entry] at h1
  exact List.all_eq_true.mp h1 k hk

theorem mergeEntry_cons (E : Dict) (k : String) (v : JValue) (tl : Dict) :
    mergeEntry E (JObj.cons k v tl) =
      mergeEntry (if v ≠ JValue.null ∧ k ≠ "first_seen" then joSet E k v else E) tl := by
  simp [mergeEntry, joItems]

theorem mergeEntry_joGet_not_mem :
    ∀ (C E : Dict) (k : String), k ∉ joKeys C →
      joGet (mergeEntry E C) k = joGet E k := by
  intro C
  induction C using joIndOn with
  | nil => intro E k _; rfl
  | cons k1 v1 tl ih =>
    intro E k hk
    simp only [joKeys, List.mem_cons, not_or] at hk
    rw [mergeEntry_cons]
    rw [ih _ k hk.2]
    by_cases hc : v1 ≠ JValue.null ∧ k1 ≠ "first_seen"
    · rw [if_pos hc, joGet_joSet_ne _ _ _ _ (fun h => hk.1 h.symm)]
    · rw [if_neg hc]

theorem mergeEntry_joGet_none (C E : Dict) (k : String) (hv : joGet C k = none) :
    joGet (mergeEntry E C) k = joGet E k := by
  refine mergeEntry_joGet_not_mem C E k fun hmem => ?hm
  have := (joGet_isSome_of_mem_keys C k).mp hmem
  rw [hv] at this
  cases this

theorem mergeEntry_joGet_some :
    ∀ (C : Dict), (joKeys C).Nodup →
      ∀ (E : Dict) (k : String) (v : JValue), joGet C k = some v →
        joGet (mergeEntry E C) k =
          if v ≠ JValue.null ∧ k ≠ "first_seen" then some v else joGet E k := by
  intro C
  induction C using joIndOn with
  | nil => intro _ E k v hv; cases hv
  | cons k1 v1 tl ih =>
    intro hnd E k v hv
    simp only [joKeys, List.nodup_cons] at hnd
    by_cases hk : k1 = k
    · subst hk
      have hv2 : v1 = v := by simpa [joGet] using hv
      subst hv2
      rw [mergeEntry_cons]
      rw [mergeEntry_joGet_not_mem tl _ k1 hnd.1]
      by_cases hc : v1 ≠ JValue.null ∧ k1 ≠ "first_seen"
      · rw [if_pos hc, if_pos hc, joGet_joSet_self]
      · rw [if_neg hc, if_neg hc]
    · simp only [joGet, if_neg hk] at hv
      rw [mergeEntry_cons]
      rw [ih hnd.2 _ k v hv]
      by_cases hc : v1 ≠ JValue.null ∧ k1 ≠ "first_seen"
      · rw [if_pos hc, joGet_joSet_ne _ _ _ _ hk]
      · rw [if_neg hc]

theorem indexLookup_some_spec :
    ∀ (entries : List Dict) (key : String) (needle : JValue) (E : Dict),
      indexLookup entries key needle = some E →
        E ∈ entries ∧ joGet E key = some needle ∧ needle ≠ JValue.null := by
  intro entries key needle
  induction entries with
  | nil => intro E h; cases h
  | cons e rest ih =>
    intro E h
    simp only [indexLookup] at h
    cases hr : indexLookup rest key needle with
    | some r =>
      rw [hr] at h
      obtain ⟨hmem, hget, hnn⟩ := ih r hr
      cases h
      exact ⟨by simp [hmem], hget, hnn⟩
    | none =>
      rw [hr] at h
      by_cases hc : joGet e key = some needle ∧ needle ≠ JValue.null
      · rw [if_pos hc] at h
        cases h
        exact ⟨by simp, hc.1, hc.2⟩
      · rw [if_neg hc] at h
        cases h

theorem indexLookup_append_single (l : List Dict) (e : Dict) (key : String)
    (needle : JValue) :
    indexLookup (l ++ [e]) key needle =
      if joGet e key = some needle ∧ needle ≠ JValue.null then some e
      else indexLookup l key needle := by
  induction l with
  | nil => simp [indexLookup]
  | cons hd tl ih =>
    simp only [List.cons_append, indexLookup, List.append_eq, ih]
    by_cases hc : joGet e key = some needle ∧ needle ≠ JValue.null
    · simp [hc]
    · simp [hc]

theorem updateLastMatching_lookup :
    ∀ (l : List Dict) (key : String) (needle : JValue) (upd : Dict → Dict) (E : Dict),
      indexLookup l key needle = some E →
      joGet (upd E) key = some needle →
        indexLookup (updateLastMatching l key needle upd) key needle = some (upd E) ∧
        upd E ∈ updateLastMatching l key needle upd := by
  intro l key needle upd
  induction l with
  | nil => intro E h; cases h
  | cons e rest ih =>
    intro E h hupd
    simp only [indexLookup] at h
    cases hr : indexLookup rest key needle with
    | some r =>
      rw [hr] at h
      cases h
      obtain ⟨h1, h2⟩ := ih E hr hupd
      have hsome : (indexLookup rest key needle).isSome := by rw [hr]; rfl
      constructor
      · simp [updateLastMatching, if_pos hsome, indexLookup, h1]
      · simp [updateLastMatching, if_pos hsome, h2]
    | none =>
      rw [hr] at h
      by_cases hc : joGet e key = some needle ∧ needle ≠ JValue.null
      · rw [if_pos hc] at h
        cases h
        have hnone : ¬(indexLookup rest key needle).isSome = true := by
          rw [hr]; simp
        constructor
        · simp [updateLastMatching, hnone, hc.1, hc.2, indexLookup, hr, hupd]
        · simp [updateLastMatching, hnone, hc.1, hc.2]
      · rw [if_neg hc] at h
        cases h

/-- The update branch of `add_or_update_entry`, characterised: the index
match is merged in place and returned. -/
theorem add_or_update_entry_update (S : DbState) (C : Dict) (idf : String)
    (now : Nat) (v : JValue) (E : Dict)
    (hid : idf ∈ index_keys) (hck : check_entry C = true)
    (hnd : (joKeys C).Nodup) (hv : joGet C idf = some v)
    (hmatch : indexLookup S.entries idf v = some E) :
    add_or_update_entry S C idf now =
      Except.ok (some (mergeEntry E C),
        ⟨S.meta, updateLastMatching S.entries idf v (fun oe => mergeEntry oe C)⟩) ∧
    mergeEntry E C ∈ updateLastMatching S.entries idf v (fun oe => mergeEntry oe C) := by
  have hnn : v ≠ JValue.null := (indexLookup_some_spec S.entries idf v E hmatch).2.2
  have hfs : idf ≠ "first_seen" := index_keys_ne_first_seen idf hid
  have hmerged : joGet (mergeEntry E C) idf = some v := by
    rw [mergeEntry_joGet_some C hnd E idf v hv, if_pos ⟨hnn, hfs⟩]
  obtain ⟨hlook, hmem⟩ :=
    updateLastMatching_lookup S.entries idf v (fun oe => mergeEntry oe C) E hmatch hmerged
  constructor
  · simp [add_or_update_entry, hid, hck, hv, hmatch, hlook]
  · exact hmem

/-- In the update branch the two database modules behave identically. -/
theorem add_or_update_entry_v0_eq (S : DbState) (C : Dict) (idf : String)
    (now : Nat) (hguard :
      (indexLookup S.entries idf ((joGet C idf).getD JValue.null)).isSome = true) :
    add_or_update_entry_v0 S C idf now = add_or_update_entry S C idf now := by
  simp [add_or_update_entry_v0, add_or_update_entry, hguard]

/-- The create branch of `add_or_update_entry`: the candidate, stamped
with `first_seen` and the stray `last_seen`, is appended. -/
theorem add_or_update_entry_create (S : DbState) (C : Dict) (idf : String)
    (now : Nat) (v : JValue)
    (hid : idf ∈ index_keys) (hck : check_entry C = true)
    (hv : joGet C idf = some v)
    (hnone : indexLookup S.entries idf v = none) (hnn : v ≠ JValue.null) :
    add_or_update_entry S C idf now =
      Except.ok (some (joSet (joSet C "first_seen" (JValue.num now)) "last_seen" (JValue.num now)),
        ⟨S.meta, S.entries ++
          [joSet (joSet C "first_seen" (JValue.num now)) "last_seen" (JValue.num now)]⟩) ∧
    joGet (joSet (joSet C "first_seen" (JValue.num now)) "last_seen" (JValue.num now))
      "first_seen" = some (JValue.num now) := by
  have hfs : idf ≠ "first_seen" := index_keys_ne_first_seen idf hid
  have hls : idf ≠ "last_seen" := index_keys_ne_last_seen idf hid
  have hgete2 : joGet (joSet (joSet C "first_seen" (JValue.num now)) "last_seen"
      (JValue.num now)) idf = some v := by
    rw [joGet_joSet_ne _ _ _ _ (Ne.symm hls), joGet_joSet_ne _ _ _ _ (Ne.symm hfs), hv]
  have hnotsome : ¬(indexLookup S.entries idf v).isSome = true := by
    rw [hnone]; simp
  constructor
  · simp [add_or_update_entry, hid, hck, hv, hnotsome, indexLookup_append_single,
      hgete2, hnn]
  · rw [joGet_joSet_ne _ _ _ _ (by decide), joGet_joSet_self]

/-- Observer: run a sequence of upserts, look up the identity value, and
read one field of the resulting entry.  `none` means a `ValueError` or a
failed lookup along the way. -/
def finalField (S0 : DbState) (idf : String) (v : JValue) (key : String)
    (ups : List (Dict × Nat)) : Option (Option JValue) :=
  match applyUpserts S0 idf ups with
  | Except.error _ => none
  | Except.ok S =>
    match indexLookup S.entries idf v with
    | none => none
    | some R => some (joGet R key)

/-- C1.  For a schema-valid candidate whose id_field value matches an
existing entry E, the upsert stores and returns the merged entry R with,
for every canonical field k other than first_seen, R[k] = C[k] when C[k]
is non-null and R[k] = E[k] otherwise, and R[first_seen] = E[first_seen].
Both database modules behave identically here. -/
theorem claim_C1_upsert_merge (S : DbState) (C : Dict) (id_field : String)
    (now : Nat) (v : JValue) (E : Dict)
    (hid : id_field ∈ index_keys) (hck : check_entry C = true)
    (hnd : (joKeys C).Nodup) (hv : joGet C id_field = some v)
    (hmatch : indexLookup S.entries id_field v = some E) :
    (add_or_update_entry S C id_field now =
      Except.ok (some (mergeEntry E C),
        ⟨S.meta, updateLastMatching S.entries id_field v (fun oe => mergeEntry oe C)⟩)) ∧
    (add_or_update_entry_v0 S C id_field now =
      Except.ok (some (mergeEntry E C),
        ⟨S.meta, updateLastMatching S.entries id_field v (fun oe => mergeEntry oe C)⟩)) ∧
    mergeEntry E C ∈ updateLastMatching S.entries id_field v (fun oe => mergeEntry oe C) ∧
    (∀ k ∈ entryKeys, k ≠ "first_seen" → ∀ ck, joGet C k = some ck →
      joGet (mergeEntry E C) k = if ck ≠ JValue.null then some ck else joGet E k) ∧
    joGet (mergeEntry E C) "first_seen" = joGet E "first_seen" := by
  obtain ⟨h1, hmem⟩ :=
    add_or_update_entry_update S C id_field now v E hid hck hnd hv hmatch
  refine ⟨h1, ?v0, hmem, ?fields, ?fs⟩
  case v0 =>
    rw [add_or_update_entry_v0_eq S C id_field now (by simp [hv, hmatch])]
    exact h1
  case fields =>
    intro k _ hkfs ck hget
    rw [mergeEntry_joGet_some C hnd E k ck hget]
    by_cases hcn : ck = JValue.null
    · simp [hcn]
    · simp [hcn, hkfs]
  case fs =>
    obtain ⟨cv, hcv⟩ := Option.isSome_iff_exists.mp
      (check_entry_has C hck "first_seen" (by decide))
    rw [mergeEntry_joGet_some C hnd E _ cv hcv, if_neg (fun hx => hx.2 rfl)]

/-- A stored entry and a candidate used to witness C1. -/
def w1Entry : Dict :=
  joSet (joSet new_entry "domain_name" (JValue.str "test")) "first_seen" (JValue.num 5)

def w1Cand : Dict :=
  joSet (joSet new_entry "domain_name" (JValue.str "test")) "mds_ipv4"
    (JValue.str "10.122.0.5")

/-- Witness for C1 at a concrete store and candidate. -/
theorem claim_C1_upsert_merge_witness :
    add_or_update_entry ⟨JValue.obj new_metadata, [w1Entry]⟩ w1Cand "domain_name" 9 =
      Except.ok (some (mergeEntry w1Entry w1Cand),
        ⟨JValue.obj new_metadata,
          updateLastMatching [w1Entry] "domain_name" (JValue.str "test")
            (fun oe => mergeEntry oe w1Cand)⟩) ∧
    joGet (mergeEntry w1Entry w1Cand) "mds_ipv4" = some (JValue.str "10.122.0.5") ∧
    joGet (mergeEntry w1Entry w1Cand) "first_seen" = some (JValue.num 5) := by
  have h := claim_C1_upsert_merge ⟨JValue.obj new_metadata, [w1Entry]⟩ w1Cand
    "domain_name" 9 (JValue.str "test") w1Entry (by decide) (by decide) (by decide)
    (by decide) (by decide)
  exact ⟨h.1, by decide, by decide⟩

theorem applyUpserts_keeps_first_seen (idf : String) (v : JValue)
    (hid : idf ∈ index_keys) :
    ∀ (ups : List (Dict × Nat)) (S : DbState) (R : Dict),
      (∀ p ∈ ups, check_entry p.1 = true ∧ (joKeys p.1).Nodup ∧ joGet p.1 idf = some v) →
      indexLookup S.entries idf v = some R →
      ∃ S2 R2, applyUpserts S idf ups = Except.ok S2 ∧
        indexLookup S2.entries idf v = some R2 ∧
        joGet R2 "first_seen" = joGet R "first_seen" := by
  intro ups
  induction ups with
  | nil => intro S R _ hR; exact ⟨S, R, rfl, hR, rfl⟩
  | cons p rest ih =>
    obtain ⟨c, t⟩ := p
    intro S R hall hR
    have hc := hall (c, t) (by simp)
    obtain ⟨h1, _⟩ :=
      add_or_update_entry_update S c idf t v R hid hc.1 hc.2.1 hc.2.2 hR
    have hnn := (indexLookup_some_spec _ _ _ _ hR).2.2
    have hmerged : joGet (mergeEntry R c) idf = some v := by
      rw [mergeEntry_joGet_some c hc.2.1 R idf v hc.2.2,
        if_pos ⟨hnn, index_keys_ne_first_seen idf hid⟩]
    obtain ⟨hlook, _⟩ := updateLastMatching_lookup S.entries idf v
      (fun oe => mergeEntry oe c) R hR hmerged
    have hfs : joGet (mergeEntry R c) "first_seen" = joGet R "first_seen" := by
      obtain ⟨cv, hcv⟩ := Option.isSome_iff_exists.mp
        (check_entry_has c hc.1 "first_seen" (by decide))
      rw [mergeEntry_joGet_some c hc.2.1 R _ cv hcv, if_neg (fun hx => hx.2 rfl)]
    obtain ⟨S2, R2, e1, e2, e3⟩ := ih
      ⟨S.meta, updateLastMatching S.entries idf v (fun oe => mergeEntry oe c)⟩
      (mergeEntry R c) (fun q hq => hall q (by simp [hq])) hlook
    refine ⟨S2, R2, ?steps, e2, by rw [e3, hfs]⟩
    simp [applyUpserts, h1, e1]

/-- C4.  For a sequence of successful upserts sharing one identity value
whose first call creates the entry, the final entry's first_seen equals
the wall-clock time of that first (creating) upsert: no later upsert
changes it. -/
theorem claim_C4_first_seen_immutable (S0 : DbState) (id_field : String)
    (v : JValue) (c0 : Dict) (t0 : Nat) (rest : List (Dict × Nat))
    (hid : id_field ∈ index_keys) (hvnn : v ≠ JValue.null)
    (hnone : indexLookup S0.entries id_field v = none)
    (hc0 : check_entry c0 = true) (hc0v : joGet c0 id_field = some v)
    (hrest : ∀ p ∈ rest,
      check_entry p.1 = true ∧ (joKeys p.1).Nodup ∧ joGet p.1 id_field = some v) :
    finalField S0 id_field v "first_seen" ((c0, t0) :: rest) =
      some (some (JValue.num t0)) := by
  obtain ⟨h1, hfs⟩ :=
    add_or_update_entry_create S0 c0 id_field t0 v hid hc0 hc0v hnone hvnn
  have hget : joGet (joSet (joSet c0 "first_seen" (JValue.num t0)) "last_seen"
      (JValue.num t0)) id_field = some v := by
    rw [joGet_joSet_ne _ _ _ _ (Ne.symm (index_keys_ne_last_seen id_field hid)),
      joGet_joSet_ne _ _ _ _ (Ne.symm (index_keys_ne_first_seen id_field hid)), hc0v]
  have hlook : indexLookup (S0.entries ++
      [joSet (joSet c0 "first_seen" (JValue.num t0)) "last_seen" (JValue.num t0)])
      id_field v =
      some (joSet (joSet c0 "first_seen" (JValue.num t0)) "last_seen" (JValue.num t0)) := by
    rw [indexLookup_append_single, if_pos ⟨hget, hvnn⟩]
  obtain ⟨S2, R2, e1, e2, e3⟩ := applyUpserts_keeps_first_seen id_field v hid rest
    ⟨S0.meta, S0.entries ++
      [joSet (joSet c0 "first_seen" (JValue.num t0)) "last_seen" (JValue.num t0)]⟩
    (joSet (joSet c0 "first_seen" (JValue.num t0)) "last_seen" (JValue.num t0))
    hrest hlook
  simp only [finalField, applyUpserts, h1, e1, e2]
  rw [e3, hfs]

/-- Candidates used to witness C4. -/
def w4c0 : Dict := joSet new_entry "domain_name" (JValue.str "vm1")

def w4c1 : Dict :=
  joSet (joSet new_entry "domain_name" (JValue.str "vm1")) "mds_ipv4"
    (JValue.str "10.122.0.9")

/-- Witness for C4: create at time 1000, update at time 2000, final
first_seen is still 1000. -/
theorem claim_C4_first_seen_immutable_witness :
    finalField ⟨JValue.obj new_metadata, []⟩ "domain_name" (JValue.str "vm1")
      "first_seen" [(w4c0, 1000), (w4c1, 2000)] = some (some (JValue.num 1000)) :=
  claim_C4_first_seen_immutable ⟨JValue.obj new_metadata, []⟩ "domain_name"
    (JValue.str "vm1") w4c0 1000 [(w4c1, 2000)] (by decide) (by decide) (by decide)
    (by decide) (by decide) (by decide)

/-- A candidate carrying a non-null last_update, and an update candidate
with all optional fields null, used for the C5 evaluation. -/
def w5c0 : Dict :=
  joSet (joSet new_entry "domain_name" (JValue.str "vm2")) "last_update" (JValue.num 500)

def w5c1 : Dict := joSet new_entry "domain_name" (JValue.str "vm2")

/-- C5 fails on the code: after a creating upsert at time 1000 and an
updating upsert at time 2000, the stored entry's last_update is still the
candidate's value 500 and its last_seen is still the creation time 1000 —
the update branch writes `entry["last_seen"] = time.time()` into the
discarded candidate dict instead of the stored entry, so no timestamp of
the stored record is refreshed at time 2000. -/
theorem claim_C5_timestamp_not_refreshed_eval :
    finalField ⟨JValue.obj new_metadata, []⟩ "domain_name" (JValue.str "vm2")
      "last_update" [(w5c0, 1000), (w5c1, 2000)] = some (some (JValue.num 500)) ∧
    finalField ⟨JValue.obj new_metadata, []⟩ "domain_name" (JValue.str "vm2")
      "last_seen" [(w5c0, 1000), (w5c1, 2000)] = some (some (JValue.num 1000)) := by
  decide

instance {e a : Type} [DecidableEq e] [DecidableEq a] : DecidableEq (Except e a) :=
  fun x y =>
  match x, y with
  | .error e1, .error e2 =>
    if h : e1 = e2 then .isTrue (by rw [h])
    else .isFalse (fun hc => h (by cases hc; rfl))
  | .ok a1, .ok a2 =>
    if h : a1 = a2 then .isTrue (by rw [h])
    else .isFalse (fun hc => h (by cases hc; rfl))
  | .error _, .ok _ => .isFalse (fun hc => Except.noConfusion hc)
  | .ok _, .error _ => .isFalse (fun hc => Except.noConfusion hc)

/-- The candidate and the entry actually stored by its creating upsert,
used for the C9 evaluation. -/
def w9c : Dict := joSet new_entry "domain_name" (JValue.str "vm3")

def w9e : Dict :=
  joSet (joSet w9c "first_seen" (JValue.num 1000)) "last_seen" (JValue.num 1000)

/-- C9 fails on the code: a creating upsert of a schema-valid candidate
stores an entry carrying the extra key last_seen on top of the canonical
field set (the code writes `last_seen` where the documented schema has
`last_update`), so the stored entry fails the module's own
`_check_entry`. -/
theorem claim_C9_canonical_fields_violated_eval :
    add_or_update_entry ⟨JValue.obj new_metadata, []⟩ w9c "domain_name" 1000 =
      Except.ok (some w9e, ⟨JValue.obj new_metadata, [w9e]⟩) ∧
    check_entry w9e = false ∧
    joKeys w9e = entryKeys ++ ["last_seen"] := by
  decide

/-- Run a sequence of `add_or_update_location` calls; `none` models a
crash. -/
def applyLocUpserts (meta : JValue) (name : String) :
    List (Dict × Nat) → Option JValue
  | [] => some meta
  | (l, t) :: rest =>
    match add_or_update_location meta name l t with
    | some m2 => applyLocUpserts m2 name rest
    | none => none

/-- Observer: one field of the location record stored under `name`. -/
def locationField (meta : JValue) (name key : String) : Option JValue :=
  match meta with
  | JValue.obj md =>
    match joGet md "locations" with
    | some (JValue.obj locs) =>
      match joGet locs name with
      | some (JValue.obj oe) => joGet oe key
      | _ => none
    | _ => none
  | _ => none

/-- Location candidates used for the C10 evaluation. -/
def w10l0 : Dict := joSet new_location "hostname" (JValue.str "host-a")

def w10l1 : Dict := joSet new_location "hostname" (JValue.str "host-b")

/-- C10 fails on the code: after creating location loc1 at time 1000 and
updating it at time 2000, the merge rule did apply (hostname becomes
host-b) and first_seen is unchanged, but last_seen is still 1000 — the
update branch of `add_or_update_location` never refreshes it, contrary
to its own docstring. -/
theorem claim_C10_location_last_seen_not_refreshed_eval :
    (applyLocUpserts (JValue.obj new_metadata) "loc1"
        [(w10l0, 1000), (w10l1, 2000)]).map
      (fun m => locationField m "loc1" "last_seen") = some (some (JValue.num 1000)) ∧
    (applyLocUpserts (JValue.obj new_metadata) "loc1"
        [(w10l0, 1000), (w10l1, 2000)]).map
      (fun m => locationField m "loc1" "hostname") =
        some (some (JValue.str "host-b")) ∧
    (applyLocUpserts (JValue.obj new_metadata) "loc1"
        [(w10l0, 1000), (w10l1, 2000)]).map
      (fun m => locationField m "loc1" "first_seen") = some (some (JValue.num 1000)) := by
  decide

/-- C7.  On an empty database, with the random offset source fixed to
1500, allocation in 10.122.0.0/16 returns "10.122.5.220"; fixed to
1500000, allocation in 2001:db8::/32 returns "2001:db8::16:e360"; and
the result is a deterministic function of the draw stream. -/
theorem claim_C7_deterministic_allocation :
    gen_ip [] (mkNet4 (10 * 16777216 + 122 * 65536) 16) [] (fun _ => 1500) 1 =
      some (some "10.122.5.220") ∧
    gen_ip [] (mkNet6 (0x20010db8 * 2 ^ 96) 32) [] (fun _ => 1500000) 1 =
      some (some "2001:db8::16:e360") ∧
    (∀ (entries : List Dict) (net : IpNet) (exclude : List String)
        (s1 s2 : Nat → Nat) (fuel : Nat), (∀ i, s1 i = s2 i) →
      gen_ip entries net exclude s1 fuel = gen_ip entries net exclude s2 fuel) := by
  refine ⟨by decide, by decide, ?det⟩
  intro entries net exclude s1 s2 fuel h
  rw [funext h]

/-- Witness for C7: the determinism part applied at a concrete stream. -/
theorem claim_C7_deterministic_allocation_witness :
    gen_ip [] (mkNet4 (10 * 16777216 + 122 * 65536) 16) [] (fun _ => 1500) 3 =
      gen_ip [] (mkNet4 (10 * 16777216 + 122 * 65536) 16) [] (fun _ => 1500) 3 :=
  claim_C7_deterministic_allocation.2.2 [] (mkNet4 (10 * 16777216 + 122 * 65536) 16)
    [] (fun _ => 1500) (fun _ => 1500) 3 (fun _ => rfl)

theorem mem_setAddJ (m : List JValue) (a x : JValue) :
    x ∈ setAddJ m a ↔ x ∈ m ∨ x = a := by
  by_cases h : a ∈ m
  · simp only [setAddJ, if_pos h]
    constructor
    · exact Or.inl
    · intro hc
      rcases hc with hc | hc
      · exact hc
      · rw [hc]; exact h
  · simp [setAddJ, if_neg h]

theorem mem_foldl_setAddJ (l : List JValue) :
    ∀ (m : List JValue) (x : JValue), x ∈ l.foldl setAddJ m ↔ x ∈ m ∨ x ∈ l := by
  induction l with
  | nil => intro m x; simp
  | cons a rest ih =>
    intro m x
    simp only [List.foldl_cons, ih, mem_setAddJ]
    constructor
    · intro hc
      rcases hc with (hc | hc) | hc
      · exact Or.inl hc
      · exact Or.inr (by simp [hc])
      · exact Or.inr (by simp [hc])
    · intro hc
      rcases hc with hc | hc
      · exact Or.inl (Or.inl hc)
      · rcases List.mem_cons.mp hc with hc | hc
        · exact Or.inl (Or.inr hc)
        · exact Or.inr hc

theorem mem_foldl_setAddJ_str (l : List String) :
    ∀ (m : List JValue) (x : JValue),
      x ∈ l.foldl (fun m a => setAddJ m (JValue.str a)) m ↔
        x ∈ m ∨ ∃ s ∈ l, x = JValue.str s := by
  induction l with
  | nil => intro m x; simp
  | cons a rest ih =>
    intro m x
    simp only [List.foldl_cons, ih, mem_setAddJ]
    constructor
    · intro hc
      rcases hc with (hc | hc) | hc
      · exact Or.inl hc
      · exact Or.inr ⟨a, by simp, hc⟩
      · obtain ⟨s, hs1, hs2⟩ := hc
        exact Or.inr ⟨s, by simp [hs1], hs2⟩
    · intro hc
      rcases hc with hc | hc
      · exact Or.inl (Or.inl hc)
      · obtain ⟨s, hs1, hs2⟩ := hc
        rcases List.mem_cons.mp hs1 with hs | hs
        · exact Or.inl (Or.inr (by rw [hs2, hs]))
        · exact Or.inr ⟨s, hs, hs2⟩

theorem mem_genIpInit (entries : List Dict) (net : IpNet) (exclude : List String)
    (x : JValue) :
    x ∈ genIpInit entries net exclude ↔
      x ∈ indexValues entries (version_keys net.version) ∨
      (∃ s ∈ exclude, x = JValue.str s) ∨
      x = JValue.str (renderIp net.version net.base) ∨
      x = JValue.str (renderIp net.version (net.base + net.numAddresses - 1)) := by
  simp only [genIpInit, mem_setAddJ, mem_foldl_setAddJ_str, or_assoc]

theorem indexValues_mem (entries : List Dict) (key : String) (x : JValue)
    (E : Dict) (hE : E ∈ entries) (hget : joGet E key = some x)
    (hnn : x ≠ JValue.null) : x ∈ indexValues entries key := by
  rw [indexValues, mem_foldl_setAddJ]
  refine Or.inr (List.mem_filterMap.mpr ⟨E, hE, ?f⟩)
  rw [hget]
  simp [hnn]

theorem genIpLoop_ret_not_mem :
    ∀ (fuel : Nat) (entries : List Dict) (net : IpNet) (m : List JValue)
      (stream : Nat → Nat) (a : String),
      genIpLoop entries net m stream fuel = some (some a) →
        JValue.str a ∉ m ∧
        indexLookup entries (version_keys net.version) (JValue.str a) = none := by
  intro fuel
  induction fuel with
  | zero => intro entries net m stream a h; cases h
  | succ f ih =>
    intro entries net m stream a h
    by_cases hg : m.length < net.numAddresses
    · simp only [genIpLoop, if_pos hg] at h
      by_cases h1 : JValue.str (renderIp net.version (net.base + stream 0)) ∈ m
      · rw [if_pos h1] at h
        exact ih entries net m _ a h
      · rw [if_neg h1] at h
        by_cases h2 : (indexLookup entries (version_keys net.version)
            (JValue.str (renderIp net.version (net.base + stream 0)))).isSome = true
        · rw [if_pos h2] at h
          have h3 := ih entries net _ _ a h
          rw [mem_setAddJ] at h3
          exact ⟨fun hc => h3.1 (Or.inl hc), h3.2⟩
        · rw [if_neg h2] at h
          cases h
          exact ⟨h1, Option.not_isSome_iff_eq_none.mp h2⟩
    · simp [genIpLoop, if_neg hg] at h

/-- Value of a decimal digit string (inverse of the rendering). -/
def decVal (l : List Char) : Nat :=
  l.foldl (fun acc c => acc * 10 + (c.toNat - 48)) 0

theorem digitChar_toNat (d : Nat) (h : d < 10) : (Nat.digitChar d).toNat = d + 48 := by
  interval_cases d <;> decide

theorem digitChar_ne_dot (d : Nat) (h : d < 10) : Nat.digitChar d ≠ '.' := by
  interval_cases d <;> decide

theorem decVal_append (l : List Char) (c : Char) :
    decVal (l ++ [c]) = decVal l * 10 + (c.toNat - 48) := by
  simp [decVal, List.foldl_append]

theorem decAux_val : ∀ (f n : Nat), n ≤ f → decVal (decAux f n) = n := by
  intro f
  induction f with
  | zero =>
    intro n h
    have h0 : n = 0 := by omega
    subst h0
    rfl
  | succ f ih =>
    intro n h
    cases n with
    | zero => rfl
    | succ m =>
      have hd : (m + 1) / 10 ≤ f := by omega
      simp only [decAux]
      rw [decVal_append, ih _ hd, digitChar_toNat _ (Nat.mod_lt _ (by norm_num))]
      omega

theorem natDecChars_val (n : Nat) : decVal (natDecChars n) = n := by
  by_cases h : n = 0
  · subst h; rfl
  · simp only [natDecChars, if_neg h]
    exact decAux_val n n (Nat.le_refl n)

theorem natDecChars_inj (m n : Nat) (h : natDecChars m = natDecChars n) : m = n := by
  rw [← natDecChars_val m, ← natDecChars_val n, h]

theorem decAux_no_dot : ∀ (f n : Nat), '.' ∉ decAux f n := by
  intro f
  induction f with
  | zero =>
    intro n
    cases n with
    | zero => simp [decAux]
    | succ m => simp [decAux]
  | succ f ih =>
    intro n
    cases n with
    | zero => simp [decAux]
    | succ m =>
      simp only [decAux, List.mem_append, List.mem_singleton]
      push_neg
      exact ⟨ih _, (digitChar_ne_dot _ (Nat.mod_lt _ (by norm_num))).symm⟩

theorem natDecChars_no_dot (n : Nat) : '.' ∉ natDecChars n := by
  by_cases h : n = 0
  · subst h; decide
  · simp only [natDecChars, if_neg h]
    exact decAux_no_dot n n

theorem append_dot_inj :
    ∀ (a c b d : List Char), '.' ∉ a → '.' ∉ c →
      a ++ '.' :: b = c ++ '.' :: d → a = c ∧ b = d := by
  intro a
  induction a with
  | nil =>
    intro c b d _ hc h
    cases c with
    | nil => simpa using h
    | cons x xs =>
      simp only [List.nil_append, List.cons_append, List.cons.injEq] at h
      rw [← h.1] at hc
      simp at hc
  | cons y ys ih =>
    intro c b d ha hc h
    cases c with
    | nil =>
      simp only [List.cons_append, List.nil_append, List.cons.injEq] at h
      rw [h.1] at ha
      simp at ha
    | cons x xs =>
      simp only [List.cons_append, List.cons.injEq] at h
      obtain ⟨h1, h2⟩ := h
      have ha2 : '.' ∉ ys := fun hm => ha (by simp [hm])
      have hc2 : '.' ∉ xs := fun hm => hc (by simp [hm])
      obtain ⟨e1, e2⟩ := ih xs b d ha2 hc2 h2
      exact ⟨by rw [h1, e1], e2⟩

theorem ipv4Str_inj (a b : Nat) (ha : a < 2 ^ 32) (hb : b < 2 ^ 32)
    (h : ipv4Str a = ipv4Str b) : a = b := by
  have h2 : ipv4Chars a = ipv4Chars b := congrArg String.data h
  simp only [ipv4Chars, List.append_assoc, List.singleton_append] at h2
  obtain ⟨e1, h3⟩ := append_dot_inj _ _ _ _ (natDecChars_no_dot _)
    (natDecChars_no_dot _) h2
  obtain ⟨e2, h4⟩ := append_dot_inj _ _ _ _ (natDecChars_no_dot _)
    (natDecChars_no_dot _) h3
  obtain ⟨e3, e4⟩ := append_dot_inj _ _ _ _ (natDecChars_no_dot _)
    (natDecChars_no_dot _) h4
  have g1 := natDecChars_inj _ _ e1
  have g2 := natDecChars_inj _ _ e2
  have g3 := natDecChars_inj _ _ e3
  have g4 := natDecChars_inj _ _ e4
  omega

theorem length_ge_of_distinct_subset {α : Type} [DecidableEq α] (l s : List α)
    (hnd : l.Nodup) (hsub : ∀ x ∈ l, x ∈ s) : l.length ≤ s.length := by
  calc l.length = l.toFinset.card := (List.toFinset_card_of_nodup hnd).symm
  _ ≤ s.toFinset.card := Finset.card_le_card fun x hx =>
      List.mem_toFinset.mpr (hsub x (List.mem_toFinset.mp hx))
  _ ≤ s.length := s.toFinset_card_le

/-- When the unavailable count already reaches the subnet size, `gen_ip`
returns `None` without drawing. -/
theorem gen_ip_exhausted (entries : List Dict) (net : IpNet)
    (exclude : List String) (stream : Nat → Nat) (fuel : Nat) (hf : 0 < fuel)
    (hlen : net.numAddresses ≤ (genIpInit entries net exclude).length) :
    gen_ip entries net exclude stream fuel = some none := by
  cases fuel with
  | zero => omega
  | succ f => simp [gen_ip, genIpLoop, Nat.not_lt.mpr hlen]

/-- C3.  A returned address is never in the exclude list, never an
address recorded in the matching family's index, and never the network
or broadcast address; when the unavailable count reaches the subnet's
address count, or (for an IPv4 subnet) every subnet address is in the
unavailable set, allocation returns `None` rather than an address. -/
theorem claim_C3_allocation_safety :
    (∀ (entries : List Dict) (net : IpNet) (exclude : List String)
        (stream : Nat → Nat) (fuel : Nat) (a : String),
      gen_ip entries net exclude stream fuel = some (some a) →
        a ∉ exclude ∧
        JValue.str a ∉ indexValues entries (version_keys net.version) ∧
        a ≠ renderIp net.version net.base ∧
        a ≠ renderIp net.version (net.base + net.numAddresses - 1)) ∧
    (∀ (entries : List Dict) (net : IpNet) (exclude : List String)
        (stream : Nat → Nat) (fuel : Nat), 0 < fuel →
      net.numAddresses ≤ (genIpInit entries net exclude).length →
      gen_ip entries net exclude stream fuel = some none) ∧
    (∀ (entries : List Dict) (base plen : Nat) (exclude : List String)
        (stream : Nat → Nat) (fuel : Nat), 0 < fuel →
      base + 2 ^ (32 - plen) ≤ 2 ^ 32 →
      (∀ off < (mkNet4 base plen).numAddresses,
        JValue.str (ipv4Str (base + off)) ∈ genIpInit entries (mkNet4 base plen) exclude) →
      gen_ip entries (mkNet4 base plen) exclude stream fuel = some none) := by
  refine ⟨?safety, ?count, ?cover⟩
  case safety =>
    intro entries net exclude stream fuel a h
    obtain ⟨hnm, _⟩ := genIpLoop_ret_not_mem fuel entries net _ stream a h
    rw [mem_genIpInit] at hnm
    push_neg at hnm
    obtain ⟨hidx, hexcl, hnet, hbc⟩ := hnm
    refine ⟨fun hc => hexcl a hc rfl, hidx, ?hn, ?hb⟩
    case hn => intro hc; exact hnet (by rw [hc])
    case hb => intro hc; exact hbc (by rw [hc])
  case count =>
    intro entries net exclude stream fuel hf hlen
    exact gen_ip_exhausted entries net exclude stream fuel hf hlen
  case cover =>
    intro entries base plen exclude stream fuel hf hbound hcov
    refine gen_ip_exhausted entries (mkNet4 base plen) exclude stream fuel hf ?hlen
    have hnd : ((List.range (2 ^ (32 - plen))).map
        (fun off => JValue.str (ipv4Str (base + off)))).Nodup := by
      refine (List.nodup_range _).map_on ?inj
      intro x hx y hy hxy
      simp only [List.mem_range] at hx hy
      simp only [JValue.str.injEq] at hxy
      have := ipv4Str_inj (base + x) (base + y) (by omega) (by omega) hxy
      omega
    have hsub : ∀ x ∈ (List.range (2 ^ (32 - plen))).map
        (fun off => JValue.str (ipv4Str (base + off))),
        x ∈ genIpInit entries (mkNet4 base plen) exclude := by
      intro x hx
      obtain ⟨off, hoff, rfl⟩ := List.mem_map.mp hx
      exact hcov off (List.mem_range.mp hoff)
    have := length_ge_of_distinct_subset _ _ hnd hsub
    simpa [mkNet4] using this

/-- Witness for C3: the concrete 10.122.0.0/16 allocation avoids the
unavailable addresses, and a fully-excluded 10.122.0.0/30 subnet yields
allocation failure. -/
theorem claim_C3_allocation_safety_witness :
    ("10.122.5.220" ∉ ([] : List String) ∧
      JValue.str "10.122.5.220" ∉ indexValues [] (version_keys 4) ∧
      "10.122.5.220" ≠ renderIp 4 (10 * 16777216 + 122 * 65536) ∧
      "10.122.5.220" ≠ renderIp 4 (10 * 16777216 + 122 * 65536 + 65536 - 1)) ∧
    gen_ip [] (mkNet4 (10 * 16777216 + 122 * 65536) 30)
      ["10.122.0.1", "10.122.0.2"] (fun _ => 1) 7 = some none := by
  constructor
  · have h := claim_C3_allocation_safety.1 [] (mkNet4 (10 * 16777216 + 122 * 65536) 16)
      [] (fun _ => 1500) 1 "10.122.5.220" (by decide)
    simpa [mkNet4] using h
  · exact claim_C3_allocation_safety.2.2 [] (10 * 16777216 + 122 * 65536) 30
      ["10.122.0.1", "10.122.0.2"] (fun _ => 1) 7 (by decide) (by decide) (by decide)

theorem indexValues_subset_genIpInit (entries : List Dict) (net : IpNet)
    (exclude : List String) :
    ∀ x ∈ indexValues entries (version_keys net.version),
      x ∈ genIpInit entries net exclude := fun x hx =>
  (mem_genIpInit entries net exclude x).mpr (Or.inl hx)

/-- While every draw hits the unavailable set, the loop spins without
changing the set: the query branch that would record a new address is
unreachable because every indexed address is already in the set. -/
theorem genIpLoop_stuck :
    ∀ (fuel : Nat) (entries : List Dict) (net : IpNet) (m : List JValue)
      (stream : Nat → Nat),
      (∀ x ∈ indexValues entries (version_keys net.version), x ∈ m) →
      m.length < net.numAddresses →
      (∀ i < fuel, JValue.str (renderIp net.version (net.base + stream i)) ∈ m) →
      genIpLoop entries net m stream fuel = none := by
  intro fuel
  induction fuel with
  | zero => intro entries net m stream _ _ _; rfl
  | succ f ih =>
    intro entries net m stream hsub hg hmem
    have h0 := hmem 0 (by omega)
    simp only [genIpLoop, if_pos hg, if_pos h0]
    exact ih entries net m _ hsub hg fun i hi => hmem (i + 1) (by omega)

/-- The loop returns the first drawn address that is not in the
unavailable set, after exactly as many iterations as there were
unavailable draws before it. -/
theorem genIpLoop_first_hit :
    ∀ (i0 fuel : Nat) (entries : List Dict) (net : IpNet) (m : List JValue)
      (stream : Nat → Nat),
      (∀ x ∈ indexValues entries (version_keys net.version), x ∈ m) →
      m.length < net.numAddresses →
      i0 < fuel →
      (∀ j < i0, JValue.str (renderIp net.version (net.base + stream j)) ∈ m) →
      JValue.str (renderIp net.version (net.base + stream i0)) ∉ m →
      genIpLoop entries net m stream fuel =
        some (some (renderIp net.version (net.base + stream i0))) := by
  intro i0
  induction i0 with
  | zero =>
    intro fuel entries net m stream hsub hg hf _ hnot
    cases fuel with
    | zero => omega
    | succ f =>
      have hq : ¬(indexLookup entries (version_keys net.version)
          (JValue.str (renderIp net.version (net.base + stream 0)))).isSome = true := by
        intro hc
        obtain ⟨E, hE⟩ := Option.isSome_iff_exists.mp hc
        have hspec := indexLookup_some_spec entries _ _ E hE
        exact hnot (hsub _ (indexValues_mem entries _ _ E hspec.1 hspec.2.1 hspec.2.2))
      simp only [genIpLoop, if_pos hg, if_neg hnot, if_neg hq]
  | succ k ih =>
    intro fuel entries net m stream hsub hg hf hbefore hnot
    cases fuel with
    | zero => omega
    | succ f =>
      have h0 := hbefore 0 (by omega)
      simp only [genIpLoop, if_pos hg, if_pos h0]
      exact ih f entries net m _ hsub hg (by omega)
        (fun j hj => hbefore (j + 1) (by omega)) hnot

/-- C6 as stated is false: the unavailable set never grows during the
loop (the recording branch is dead code because the set starts with
every indexed address), so the iteration count is not bounded by the
subnet size.  In 10.122.0.0/30 with the gateway excluded, offset 2 is
free and the guard passes, yet a draw stream stuck on offset 1 keeps the
loop running after 4 (the subnet size) and even 100 iterations. -/
theorem claim_C6_counterexample :
    gen_ip [] (mkNet4 (10 * 16777216 + 122 * 65536) 30) ["10.122.0.1"]
      (fun _ => 1) 4 = none ∧
    gen_ip [] (mkNet4 (10 * 16777216 + 122 * 65536) 30) ["10.122.0.1"]
      (fun _ => 1) 100 = none ∧
    (genIpInit [] (mkNet4 (10 * 16777216 + 122 * 65536) 30) ["10.122.0.1"]).length <
      (mkNet4 (10 * 16777216 + 122 * 65536) 30).numAddresses ∧
    JValue.str (ipv4Str (10 * 16777216 + 122 * 65536 + 2)) ∉
      genIpInit [] (mkNet4 (10 * 16777216 + 122 * 65536) 30) ["10.122.0.1"] := by
  decide

/-- C6 amended.  The loop exits without drawing (returning None) when
the unavailable count already reaches the subnet's address count;
otherwise the unavailable set never changes, the loop returns the first
available draw after exactly as many iterations as there were
unavailable draws before it, and it is still running after `fuel`
iterations whenever the first `fuel` draws are all unavailable — so the
iteration count is bounded by the position of the first available draw
in the random stream, not by the subnet size. -/
theorem claim_C6_loop_characterization :
    (∀ (entries : List Dict) (net : IpNet) (exclude : List String)
        (stream : Nat → Nat) (fuel : Nat), 0 < fuel →
      net.numAddresses ≤ (genIpInit entries net exclude).length →
      gen_ip entries net exclude stream fuel = some none) ∧
    (∀ (entries : List Dict) (net : IpNet) (exclude : List String)
        (stream : Nat → Nat) (fuel : Nat),
      (genIpInit entries net exclude).length < net.numAddresses →
      (∀ i < fuel, JValue.str (renderIp net.version (net.base + stream i)) ∈
        genIpInit entries net exclude) →
      gen_ip entries net exclude stream fuel = none) ∧
    (∀ (entries : List Dict) (net : IpNet) (exclude : List String)
        (stream : Nat → Nat) (fuel i0 : Nat),
      (genIpInit entries net exclude).length < net.numAddresses →
      i0 < fuel →
      (∀ j < i0, JValue.str (renderIp net.version (net.base + stream j)) ∈
        genIpInit entries net exclude) →
      JValue.str (renderIp net.version (net.base + stream i0)) ∉
        genIpInit entries net exclude →
      gen_ip entries net exclude stream fuel =
        some (some (renderIp net.version (net.base + stream i0)))) := by
  refine ⟨?ex, ?stuck, ?hit⟩
  case ex =>
    intro entries net exclude stream fuel hf hlen
    exact gen_ip_exhausted entries net exclude stream fuel hf hlen
  case stuck =>
    intro entries net exclude stream fuel hg hmem
    exact genIpLoop_stuck fuel entries net _ stream
      (indexValues_subset_genIpInit entries net exclude) hg hmem
  case hit =>
    intro entries net exclude stream fuel i0 hg hf hbefore hnot
    exact genIpLoop_first_hit i0 fuel entries net _ stream
      (indexValues_subset_genIpInit entries net exclude) hg hf hbefore hnot

/-- Witness for the amended C6: with the draw stream stuck on the free
offset 2, the loop returns 10.122.0.2 on its first iteration. -/
theorem claim_C6_loop_characterization_witness :
    gen_ip [] (mkNet4 (10 * 16777216 + 122 * 65536) 30) ["10.122.0.1"]
      (fun _ => 2) 5 =
      some (some (renderIp 4 (10 * 16777216 + 122 * 65536 + 2))) := by
  have h := claim_C6_loop_characterization.2.2 []
    (mkNet4 (10 * 16777216 + 122 * 65536) 30) ["10.122.0.1"] (fun _ => 2) 5 0
    (by decide) (by decide) (fun j hj => absurd hj (Nat.not_lt_zero j)) (by decide)
  simpa [mkNet4] using h
